import Mathlib

/-!
Verification development for `scrape_simplified.py`, a one-shot CLI tool that
fetches a web page, extracts the "Simplified" column of the first qualifying
HTML table, and writes the values to a CSV file.

The embedding models the program at the level of the parsed document tree
(the HTML parsing library is an external collaborator): a document is the
list of its tables in document order, a table is the list of its rows, and
each row carries its header cells (`th`) and data cells (`td`).  A cell is
the list of its descendant text nodes, which is what the library's
`get_text(separator, strip=True)` operates on: each text node is trimmed,
empty ones are dropped, and the rest are joined with the separator.
-/

deriving instance DecidableEq for Except

namespace AnkiScrape

/-- Python `str.strip()` on the character list: drop whitespace from both ends. -/
def trimChars (cs : List Char) : List Char :=
  ((cs.dropWhile Char.isWhitespace).reverse.dropWhile Char.isWhitespace).reverse

/-- Python `str.strip()` lifted to strings. -/
def pyStrip (s : String) : String :=
  ⟨trimChars s.data⟩

/-- A table cell: the sequence of its descendant text nodes in order. -/
structure Cell where
  texts : List String
  deriving DecidableEq, Repr, Inhabited

/-- `get_text(sep, strip=True)` of the parsing library: trim each text node,
drop the ones that become empty, join the rest with `sep`. -/
def getText (sep : String) (c : Cell) : String :=
  ⟨List.intercalate sep.data (((c.texts.map pyStrip).filter (fun s => s ≠ "")).map String.data)⟩

/-- A table row: its header cells (`tr.find_all("th")`) and its data cells
(`tr.find_all("td")`), each in document order. -/
structure Row where
  ths : List Cell
  tds : List Cell
  deriving DecidableEq, Repr, Inhabited

/-- A table is the list of its rows (`table.find_all("tr")`). -/
abbrev Table := List Row

/-- A parsed document: its tables in document order (`soup.find_all("table")`). -/
abbrev Html := List Table

/-- The normalized header labels of a row: `[th.get_text(" ", strip=True) for th in ths]`. -/
def headerLabels (tr : Row) : List String :=
  tr.ths.map (getText " ")

/-- The header-scanning loop of `extract_simplified` (lines 38-46): walk the
rows; skip rows with no `th` cells; on the first row whose labels contain
`"Simplified"`, return the index of its first occurrence and stop. -/
def findHeaderIdx : List Row → Option Nat
  | [] => none
  | tr :: rest =>
    if tr.ths.isEmpty then findHeaderIdx rest
    else
      let headers := headerLabels tr
      if "Simplified" ∈ headers then some (headers.indexOf "Simplified")
      else findHeaderIdx rest

/-- The body of the data-row loop (lines 52-58) for one row: skip the row if
it has no data cells or too few to reach `idx`; otherwise take the cell's
text (`get_text("", strip=True)`); keep it only if non-empty. -/
def rowValue (idx : Nat) (tr : Row) : Option String :=
  if tr.tds.isEmpty ∨ tr.tds.length ≤ idx then none
  else
    let text := getText "" (tr.tds.getD idx ⟨[]⟩)
    if text = "" then none else some text

/-- The values accumulated by the data-row loop for one table, in row order. -/
def tableValues (idx : Nat) (t : Table) : List String :=
  t.filterMap (rowValue idx)

/-- The error message raised when no table qualifies (line 62). -/
def extractErrMsg : String := "Could not find a table with a 'Simplified' header."

/-- The error message raised when the bs4 library is absent (line 32). -/
def bs4ErrMsg : String :=
  "Missing dependency: beautifulsoup4 (bs4). Install with: pip install beautifulsoup4"

/-- The table loop of `extract_simplified` (lines 37-62): for each table in
document order, look for a `"Simplified"` header; if found, collect the
column's non-empty values; return them if there is at least one, otherwise
move on; raise if no table yields anything. -/
def extractLoop : Html → Except String (List String)
  | [] => .error extractErrMsg
  | t :: rest =>
    match findHeaderIdx t with
    | none => extractLoop rest
    | some idx =>
      if (tableValues idx t).isEmpty then extractLoop rest
      else .ok (tableValues idx t)

/-- `extract_simplified` (lines 30-62).  `bs4Available` models whether the
`bs4` import at lines 7-10 succeeded. -/
def extract_simplified (bs4Available : Bool) (doc : Html) : Except String (List String) :=
  if bs4Available then extractLoop doc else .error bs4ErrMsg

/-- A table qualifies when it has a `"Simplified"` header and the column has
at least one non-empty value. -/
def qualifies (t : Table) : Bool :=
  match findHeaderIdx t with
  | none => false
  | some idx => !(tableValues idx t).isEmpty

/-- The keep-condition of the data-row loop: the row has a data cell at
`idx` and its text is non-empty. -/
def rowKept (idx : Nat) (tr : Row) : Bool :=
  decide (idx < tr.tds.length) && decide (getText "" (tr.tds.getD idx ⟨[]⟩) ≠ "")

/-- The text the data-row loop reads from a row. -/
def rowText (idx : Nat) (tr : Row) : String :=
  getText "" (tr.tds.getD idx ⟨[]⟩)

/-- The document of the spec's concrete scenario: one table, header row
`["Rank","Simplified","Pinyin"]`, data rows `["1","的","de"]` and
`["2","","le"]`. -/
def sampleDoc : Html :=
  [[⟨[⟨["Rank"]⟩, ⟨["Simplified"]⟩, ⟨["Pinyin"]⟩], []⟩,
    ⟨[], [⟨["1"]⟩, ⟨["的"]⟩, ⟨["de"]⟩]⟩,
    ⟨[], [⟨["2"]⟩, ⟨[""]⟩, ⟨["le"]⟩]⟩]]

/-- Claim C4 counterexample: a header row with two cells labelled
"Simplified" (so not exactly one) still gets an index recorded. -/
def dupRow : Row := ⟨[⟨["Simplified"]⟩, ⟨["Simplified"]⟩], []⟩

/-! ### Output file name derivation (lines 80-83 of `main`) -/

/-- Python `str.rstrip("/")`: drop trailing `'/'` characters. -/
def rstripSlash (cs : List Char) : List Char :=
  (cs.reverse.dropWhile (fun c => c = '/')).reverse

/-- Python `str.split("/")`: split on every `'/'`, keeping empty segments;
the empty string yields `[[]]`, so the result is never the empty list. -/
def splitSlash : List Char → List (List Char)
  | [] => [[]]
  | c :: cs =>
    if c = '/' then [] :: splitSlash cs
    else
      match splitSlash cs with
      | [] => [[c]]
      | s :: ss => (c :: s) :: ss

/-- Python `lst[-1]` on a list of segments, with `[]` for the empty list
(unreachable here because `split` never returns an empty list). -/
def pyLast : List (List Char) → List Char
  | [] => []
  | [s] => s
  | _ :: s :: ss => pyLast (s :: ss)

/-- The error message of line 82. -/
def nameErrMsg : String := "Could not derive output file name from URL."

/-- Lines 80-82: `base = url.rstrip("/").split("/")[-1]`; raise when `base`
is empty. -/
def deriveBase (url : String) : Except String String :=
  let base := pyLast (splitSlash (rstripSlash url.data))
  if base.isEmpty then .error nameErrMsg else .ok ⟨base⟩

/-- Line 83: `out_path = out_dir / f"{base}.csv"`, the output file name
relative to the output directory. -/
def outFileName (url : String) : Except String String :=
  match deriveBase url with
  | .error e => .error e
  | .ok base => .ok (base ++ ".csv")

/-- Modelled from the spec: "strip trailing slashes from the URL, split on
`/`, take the last non-empty segment" — the last non-empty segment of the
URL split on `/`, if any. -/
def specLastSegment (url : String) : Option (List Char) :=
  (splitSlash url.data).reverse.find? (fun s => !s.isEmpty)

/-! ### CSV writing (lines 89-94 of `main`) and reading back

The writer models Python's `csv.writer` default dialect: delimiter `,`,
quote `"`, doubled-quote escaping, minimal quoting (a field is quoted iff it
contains the delimiter, the quote, or a line-terminator character), rows
terminated by `\r\n`.  The reader is the standard CSV state machine of
`csv.reader` for the same dialect. -/

/-- QUOTE_MINIMAL: a field needs quoting iff it contains `,`, `"`, CR or LF. -/
def needsQuote (cs : List Char) : Bool :=
  cs.any (fun ch => ch == ',' || ch == '"' || ch == '\r' || ch == '\n')

/-- Double every quote character (the default doublequote escaping). -/
def escapeQuotes : List Char → List Char
  | [] => []
  | ch :: cs => if ch = '"' then '"' :: '"' :: escapeQuotes cs else ch :: escapeQuotes cs

/-- Render one CSV field. -/
def writeField (cs : List Char) : List Char :=
  if needsQuote cs then '"' :: (escapeQuotes cs ++ ['"']) else cs

/-- `writer.writerow(row)`: fields joined with `,`, row terminated by `\r\n`. -/
def writeRow (row : List (List Char)) : List Char :=
  List.intercalate [','] (row.map writeField) ++ ['\r', '\n']

/-- Lines 93-94: one single-field row per extracted value. -/
def writeCsvBody (vals : List (List Char)) : List Char :=
  (vals.map (fun v => writeRow [v])).flatten

/-- Reader states of the CSV state machine. -/
inductive CsvMode
  | startRecord
  | startField
  | inField
  | inQuoted
  | quoteQuoted
  | seenCR
  deriving DecidableEq, Repr

/-- Reader state: current mode, field being built, fields of the current
record, completed records. -/
structure CsvState where
  mode : CsvMode
  field : List Char
  record : List (List Char)
  records : List (List (List Char))
  deriving DecidableEq, Repr

def csvInit : CsvState := ⟨.startRecord, [], [], []⟩

/-- Close the current field. -/
def saveField (st : CsvState) : CsvState :=
  { st with field := [], record := st.record ++ [st.field] }

/-- Close the current record. -/
def emitRecord (st : CsvState) : CsvState :=
  { st with record := [], records := st.records ++ [st.record] }

/-- Dispatch for a character at the start of a field. -/
def startFieldStep (st : CsvState) (ch : Char) : CsvState :=
  if ch = '"' then { st with mode := .inQuoted }
  else if ch = ',' then { saveField st with mode := .startField }
  else if ch = '\r' then { saveField st with mode := .seenCR }
  else if ch = '\n' then { emitRecord (saveField st) with mode := .startRecord }
  else { st with field := st.field ++ [ch], mode := .inField }

/-- One transition of the CSV reader. -/
def csvStep (st : CsvState) (ch : Char) : CsvState :=
  match st.mode with
  | .startRecord =>
    if ch = '\r' then { st with mode := .seenCR }
    else if ch = '\n' then { emitRecord st with mode := .startRecord }
    else startFieldStep st ch
  | .startField => startFieldStep st ch
  | .inField =>
    if ch = ',' then { saveField st with mode := .startField }
    else if ch = '\r' then { saveField st with mode := .seenCR }
    else if ch = '\n' then { emitRecord (saveField st) with mode := .startRecord }
    else { st with field := st.field ++ [ch] }
  | .inQuoted =>
    if ch = '"' then { st with mode := .quoteQuoted }
    else { st with field := st.field ++ [ch] }
  | .quoteQuoted =>
    if ch = '"' then { st with field := st.field ++ ['"'], mode := .inQuoted }
    else if ch = ',' then { saveField st with mode := .startField }
    else if ch = '\r' then { saveField st with mode := .seenCR }
    else if ch = '\n' then { emitRecord (saveField st) with mode := .startRecord }
    else { st with field := st.field ++ [ch], mode := .inField }
  | .seenCR =>
    if ch = '\n' then { emitRecord st with mode := .startRecord }
    else if ch = '\r' then { emitRecord st with mode := .seenCR }
    else startFieldStep { emitRecord st with mode := .startRecord } ch

/-- End of input: flush whatever is pending. -/
def csvFinish (st : CsvState) : List (List (List Char)) :=
  match st.mode with
  | .startRecord => st.records
  | .seenCR => (emitRecord st).records
  | _ => (emitRecord (saveField st)).records

/-- The CSV reader: run the state machine over the whole text. -/
def parseCsv (cs : List Char) : List (List (List Char)) :=
  csvFinish (cs.foldl csvStep csvInit)

/-! ### Fetching (`fetch_html`, lines 13-27)

The two transports are external collaborators, modelled as oracle functions
from the request actually issued (URL, user-agent, timeout) to an outcome. -/

/-- The request data the code passes to either transport. -/
structure HttpRequest where
  url : String
  userAgent : String
  timeoutSeconds : Nat
  deriving DecidableEq, Repr

/-- The user-agent string of lines 17 and 25. -/
def scraperUA : String := "Mozilla/5.0 (compatible; anki_tools/1.0)"

/-- The request both transports are given: the URL, the fixed user-agent,
and a 30-second timeout. -/
def mkReq (url : String) : HttpRequest := ⟨url, scraperUA, 30⟩

/-- Outcome of the primary transport (`requests.get`): a response with a
status and text, or an exception from any other cause (library missing,
network failure, timeout, ...). -/
inductive PrimaryOutcome
  | response (status : Nat) (text : String)
  | exn
  deriving DecidableEq, Repr

/-- Modelled from the spec: the primary transport is "a full-featured HTTP
client that raises on non-2xx responses" (`requests` with
`raise_for_status`, an external collaborator, not code of this repository);
any other exception also raises. -/
def primaryRaises : PrimaryOutcome → Bool
  | .exn => true
  | .response status _ => !(decide (200 ≤ status) && decide (status < 300))

/-- Outcome of the fallback transport (`urllib.request.urlopen`): raw
response bytes, or an exception. -/
inductive FallbackOutcome
  | response (body : List Nat)
  | exn
  deriving DecidableEq, Repr

/-- The Unicode replacement character U+FFFD. -/
def repl : Char := Char.ofNat 0xFFFD

/-- A UTF-8 continuation byte. -/
def isCont (b : Nat) : Bool := decide (0x80 ≤ b) && decide (b < 0xC0)

/-- Lower bound of the first continuation byte for a given lead byte. -/
def cont1Lo (b : Nat) : Nat := if b = 0xE0 then 0xA0 else if b = 0xF0 then 0x90 else 0x80

/-- Upper bound of the first continuation byte for a given lead byte. -/
def cont1Hi (b : Nat) : Nat := if b = 0xED then 0x9F else if b = 0xF4 then 0x8F else 0xBF

/-- Validity of the first continuation byte after a multi-byte lead (rules
out overlong forms and surrogates). -/
def validCont1 (lead b : Nat) : Bool := decide (cont1Lo lead ≤ b) && decide (b ≤ cont1Hi lead)

/-- `bytes.decode("utf-8", errors="replace")` (line 27): total decoding;
each maximal invalid subsequence becomes one U+FFFD and decoding resumes at
the offending byte, instead of failing. -/
def decodeUtf8Replace : List Nat → List Char
  | [] => []
  | b :: bs =>
    if b < 0x80 then Char.ofNat b :: decodeUtf8Replace bs
    else if b < 0xC2 then repl :: decodeUtf8Replace bs
    else if b < 0xE0 then
      match bs with
      | [] => [repl]
      | b1 :: rest =>
        if isCont b1 then
          Char.ofNat ((b - 0xC0) * 0x40 + (b1 - 0x80)) :: decodeUtf8Replace rest
        else repl :: decodeUtf8Replace (b1 :: rest)
    else if b < 0xF0 then
      match bs with
      | [] => [repl]
      | b1 :: rest =>
        if validCont1 b b1 then
          match rest with
          | [] => [repl]
          | b2 :: rest2 =>
            if isCont b2 then
              Char.ofNat ((b - 0xE0) * 0x1000 + (b1 - 0x80) * 0x40 + (b2 - 0x80))
                :: decodeUtf8Replace rest2
            else repl :: decodeUtf8Replace (b2 :: rest2)
        else repl :: decodeUtf8Replace (b1 :: rest)
    else if b < 0xF5 then
      match bs with
      | [] => [repl]
      | b1 :: rest =>
        if validCont1 b b1 then
          match rest with
          | [] => [repl]
          | b2 :: rest2 =>
            if isCont b2 then
              match rest2 with
              | [] => [repl]
              | b3 :: rest3 =>
                if isCont b3 then
                  Char.ofNat ((b - 0xF0) * 0x40000 + (b1 - 0x80) * 0x1000 +
                      (b2 - 0x80) * 0x40 + (b3 - 0x80)) :: decodeUtf8Replace rest3
                else repl :: decodeUtf8Replace (b3 :: rest3)
            else repl :: decodeUtf8Replace (b2 :: rest2)
        else repl :: decodeUtf8Replace (b1 :: rest)
    else repl :: decodeUtf8Replace bs

/-- Error result when the fallback transport also fails (the exception
escapes `fetch_html` and is reported at top level). -/
def fetchErrMsg : String := "fetch failed"

/-- Lines 22-27: the fallback path — GET via the built-in client with the
same user-agent and timeout, body decoded as UTF-8 with replacement. -/
def fetchFallback (url : String) (fallback : HttpRequest → FallbackOutcome) :
    Except String String :=
  match fallback (mkReq url) with
  | .response body => .ok ⟨decodeUtf8Replace body⟩
  | .exn => .error fetchErrMsg

/-- `fetch_html` (lines 13-27): try the primary transport; on any exception
(including `raise_for_status`) fall back to the built-in client. -/
def fetch_html (url : String) (primary : HttpRequest → PrimaryOutcome)
    (fallback : HttpRequest → FallbackOutcome) : Except String String :=
  match primary (mkReq url) with
  | .response status text =>
    if primaryRaises (.response status text) then fetchFallback url fallback
    else .ok text
  | .exn => fetchFallback url fallback

/-! ### Flag handling (line 70) and the written output (lines 89-94) -/

/-- argparse `action="store_true"` with a given default: the parsed value is
the default when the flag is absent and `true` when it is present. -/
def storeTrueValue (default : Bool) (present : Bool) : Bool :=
  if present then true else default

/-- Line 70: `--no-header` is `store_true` with `default=True`. -/
def noHeaderValue (present : Bool) : Bool := storeTrueValue true present

/-- Lines 89-94: the text written to the output file (modulo the UTF-8 BOM
of the `utf-8-sig` encoding, an encoding-layer concern): the header row when
`no_header` is false, then one CSV row per extracted value. -/
def outputContent (noHeader : Bool) (vals : List (List Char)) : List Char :=
  (if !noHeader then writeRow ["Simplified".data] else []) ++ writeCsvBody vals

/-! ### `main` (lines 74-97): order of effects -/

/-- Externally visible effects of `main`, in order. -/
inductive Effect
  | mkdirOut
  | openWrite
  | writeRows (content : List Char)
  | printSummary (count : Nat)
  deriving DecidableEq, Repr

/-- `main` (lines 74-97) as a result plus its trace of effects: the output
directory is created first (line 78); then the file name is derived (lines
80-83), the page fetched (line 85) and the column extracted (line 86) — any
failure escapes before the output file is opened; only then is the file
opened, written (lines 89-94) and the summary printed (line 96). -/
def main_run (url : String) (noHeaderFlag : Bool) (bs4Available : Bool)
    (primary : HttpRequest → PrimaryOutcome) (fallback : HttpRequest → FallbackOutcome)
    (parseDoc : String → Html) : Except String Nat × List Effect :=
  match deriveBase url with
  | .error e => (.error e, [Effect.mkdirOut])
  | .ok _base =>
    match fetch_html url primary fallback with
    | .error e => (.error e, [Effect.mkdirOut])
    | .ok html =>
      match extract_simplified bs4Available (parseDoc html) with
      | .error e => (.error e, [Effect.mkdirOut])
      | .ok vals =>
        (.ok vals.length,
          [Effect.mkdirOut, Effect.openWrite,
            Effect.writeRows (outputContent (noHeaderValue noHeaderFlag)
              (vals.map String.data)),
            Effect.printSummary vals.length])

theorem rowValue_eq (idx : Nat) (tr : Row) :
    rowValue idx tr = if rowKept idx tr then some (rowText idx tr) else none := by
  unfold rowValue rowKept rowText
  rcases tr with ⟨ths, tds⟩
  by_cases h1 : tds.isEmpty = true ∨ tds.length ≤ idx
  · have h2 : ¬ idx < tds.length := by
      rcases h1 with h1 | h1
      · simp [List.isEmpty_iff] at h1
        simp [h1]
      · omega
    simp [h1, h2]
  · push_neg at h1
    have h2 : idx < tds.length := by omega
    by_cases h3 : getText "" (tds.getD idx ⟨[]⟩) = ""
    · simp [h1, h2, h3]
    · simp [h1, h2, h3]

theorem tableValues_eq_filter_map (idx : Nat) (t : Table) :
    tableValues idx t = (t.filter (rowKept idx)).map (rowText idx) := by
  induction t with
  | nil => rfl
  | cons tr rest ih =>
    unfold tableValues at *
    rw [List.filterMap_cons, rowValue_eq]
    by_cases hk : rowKept idx tr
    · simp [hk, ih]
    · simp [hk, ih]

theorem length_tableValues (idx : Nat) (t : Table) :
    (tableValues idx t).length = t.countP (rowKept idx) := by
  rw [tableValues_eq_filter_map, List.length_map, ← List.countP_eq_length_filter]

theorem mem_tableValues_ne_empty {idx : Nat} {t : Table} {s : String}
    (h : s ∈ tableValues idx t) : s ≠ "" := by
  unfold tableValues at h
  rcases List.mem_filterMap.mp h with ⟨tr, _, hv⟩
  rw [rowValue_eq] at hv
  by_cases hk : rowKept idx tr
  · simp [hk] at hv
    have : rowText idx tr ≠ "" := by
      have := hk
      unfold rowKept at this
      simp only [Bool.and_eq_true, decide_eq_true_eq] at this
      exact this.2
    rw [hv] at this
    exact this
  · simp [hk] at hv

theorem findHeaderIdx_eq_find (rows : List Row) :
    findHeaderIdx rows =
      (rows.find? (fun tr => decide ("Simplified" ∈ headerLabels tr))).map
        (fun tr => (headerLabels tr).indexOf "Simplified") := by
  induction rows with
  | nil => rfl
  | cons tr rest ih =>
    unfold findHeaderIdx
    by_cases h1 : tr.ths.isEmpty
    · have hlab : headerLabels tr = [] := by
        unfold headerLabels
        simp [List.isEmpty_iff] at h1
        simp [h1]
      rw [List.find?_cons_of_neg _ (by simp [hlab])]
      simp [h1, ih]
    · by_cases h2 : "Simplified" ∈ headerLabels tr
      · rw [List.find?_cons_of_pos _ (by simpa using h2)]
        simp [h1, h2]
      · rw [List.find?_cons_of_neg _ (by simpa using h2)]
        simp [h1, h2, ih]

theorem extractLoop_cons_none {t : Table} {rest : Html}
    (h : findHeaderIdx t = none) : extractLoop (t :: rest) = extractLoop rest := by
  simp [extractLoop, h]

theorem extractLoop_cons_empty {t : Table} {rest : Html} {idx : Nat}
    (h : findHeaderIdx t = some idx) (he : (tableValues idx t).isEmpty) :
    extractLoop (t :: rest) = extractLoop rest := by
  simp [extractLoop, h, he]

theorem extractLoop_cons_ok {t : Table} {rest : Html} {idx : Nat}
    (h : findHeaderIdx t = some idx) (he : ¬ (tableValues idx t).isEmpty) :
    extractLoop (t :: rest) = .ok (tableValues idx t) := by
  have he' : (tableValues idx t).isEmpty = false := by
    simpa using he
  simp [extractLoop, h, he']

theorem qualifies_false_of_none {t : Table} (h : findHeaderIdx t = none) :
    qualifies t = false := by
  unfold qualifies
  rw [h]

theorem qualifies_false_of_empty {t : Table} {idx : Nat}
    (h : findHeaderIdx t = some idx) (he : (tableValues idx t).isEmpty) :
    qualifies t = false := by
  unfold qualifies
  rw [h]
  simp [he]

theorem qualifies_true {t : Table} {idx : Nat}
    (h : findHeaderIdx t = some idx) (he : ¬ (tableValues idx t).isEmpty) :
    qualifies t = true := by
  unfold qualifies
  rw [h]
  simp [he]

theorem extract_simplified_true (doc : Html) :
    extract_simplified true doc = extractLoop doc := rfl

theorem extractLoop_ok_spec (doc : Html) :
    ∀ vs, extractLoop doc = .ok vs → vs ≠ [] ∧ ∀ s ∈ vs, s ≠ "" := by
  induction doc with
  | nil =>
    intro vs h
    simp [extractLoop] at h
  | cons t0 rest ih =>
    intro vs h
    rcases hfi : findHeaderIdx t0 with _ | idx
    · rw [extractLoop_cons_none hfi] at h
      exact ih vs h
    · by_cases hv : (tableValues idx t0).isEmpty
      · rw [extractLoop_cons_empty hfi hv] at h
        exact ih vs h
      · rw [extractLoop_cons_ok hfi hv] at h
        have hvs : tableValues idx t0 = vs := Except.ok.inj h
        subst hvs
        refine ⟨by simpa using hv, ?_⟩
        intro s hs
        exact mem_tableValues_ne_empty hs

/-- Claim C1: for every document containing a table that has a "Simplified"
header and at least one data row with non-empty trimmed text in that column,
`extract_simplified` returns the values of such a table: exactly the cell
texts of the rows that reach the target index and have non-empty trimmed
text, in row order, so the length equals the number of such rows; empty and
too-short rows are skipped. -/
theorem claim_C1 (doc : Html) (h : ∃ t ∈ doc, qualifies t = true) :
    ∃ t idx, t ∈ doc ∧ findHeaderIdx t = some idx ∧
      extract_simplified true doc = .ok (tableValues idx t) ∧
      tableValues idx t = (t.filter (rowKept idx)).map (rowText idx) ∧
      (tableValues idx t).length = t.countP (rowKept idx) ∧
      tableValues idx t ≠ [] := by
  induction doc with
  | nil =>
    rcases h with ⟨t, ht, _⟩
    exact absurd ht (List.not_mem_nil t)
  | cons t0 rest ih =>
    rcases hfi : findHeaderIdx t0 with _ | idx
    · have hq0 := qualifies_false_of_none hfi
      have h' : ∃ t ∈ rest, qualifies t = true := by
        rcases h with ⟨t, ht, hqt⟩
        rcases List.mem_cons.mp ht with rfl | htr
        · rw [hq0] at hqt
          cases hqt
        · exact ⟨t, htr, hqt⟩
      rcases ih h' with ⟨t, idx, htmem, hfi', hex, hval, hlen, hne⟩
      refine ⟨t, idx, List.mem_cons_of_mem _ htmem, hfi', ?_, hval, hlen, hne⟩
      rw [extract_simplified_true, extractLoop_cons_none hfi,
        ← extract_simplified_true]
      exact hex
    · by_cases hv : (tableValues idx t0).isEmpty
      · have hq0 := qualifies_false_of_empty hfi hv
        have h' : ∃ t ∈ rest, qualifies t = true := by
          rcases h with ⟨t, ht, hqt⟩
          rcases List.mem_cons.mp ht with rfl | htr
          · rw [hq0] at hqt
            cases hqt
          · exact ⟨t, htr, hqt⟩
        rcases ih h' with ⟨t, idx, htmem, hfi', hex, hval, hlen, hne⟩
        refine ⟨t, idx, List.mem_cons_of_mem _ htmem, hfi', ?_, hval, hlen, hne⟩
        rw [extract_simplified_true, extractLoop_cons_empty hfi hv,
          ← extract_simplified_true]
        exact hex
      · refine ⟨t0, idx, List.mem_cons_self _ _, hfi, ?_,
          tableValues_eq_filter_map idx t0, length_tableValues idx t0, ?_⟩
        · rw [extract_simplified_true, extractLoop_cons_ok hfi hv]
        · simpa using hv

/-- Witness for C1 at the spec's concrete scenario. -/
theorem claim_C1_witness :
    ∃ t idx, t ∈ sampleDoc ∧ findHeaderIdx t = some idx ∧
      extract_simplified true sampleDoc = .ok (tableValues idx t) ∧
      tableValues idx t = (t.filter (rowKept idx)).map (rowText idx) ∧
      (tableValues idx t).length = t.countP (rowKept idx) ∧
      tableValues idx t ≠ [] :=
  claim_C1 sampleDoc (by decide)

/-- Claim C2: `extract_simplified` returns the values of the first table in
document order that both has a "Simplified" header and yields at least one
non-empty value, and it raises the extraction error exactly when no table
qualifies. -/
theorem claim_C2 (doc : Html) :
    match doc.find? qualifies with
    | some t => ∃ idx, findHeaderIdx t = some idx ∧
        extract_simplified true doc = .ok (tableValues idx t)
    | none => extract_simplified true doc = .error extractErrMsg := by
  induction doc with
  | nil => simp [extract_simplified, extractLoop]
  | cons t0 rest ih =>
    by_cases hq : qualifies t0 = true
    · rw [List.find?_cons_of_pos _ hq]
      unfold qualifies at hq
      rcases hfi : findHeaderIdx t0 with _ | idx
      · rw [hfi] at hq
        cases hq
      · rw [hfi] at hq
        have hv : ¬ (tableValues idx t0).isEmpty := by simpa using hq
        exact ⟨idx, hfi, by rw [extract_simplified_true, extractLoop_cons_ok hfi hv]⟩
    · rw [List.find?_cons_of_neg _ hq]
      have hstep : extractLoop (t0 :: rest) = extractLoop rest := by
        rcases hfi : findHeaderIdx t0 with _ | idx
        · exact extractLoop_cons_none hfi
        · by_cases hv : (tableValues idx t0).isEmpty
          · exact extractLoop_cons_empty hfi hv
          · exact absurd (qualifies_true hfi hv) hq
      rcases hfind : rest.find? qualifies with _ | t
      · simp only [hfind] at ih
        rw [extract_simplified_true, hstep, ← extract_simplified_true]
        exact ih
      · simp only [hfind] at ih
        rcases ih with ⟨idx, hfi', hex⟩
        refine ⟨idx, hfi', ?_⟩
        rw [extract_simplified_true, hstep, ← extract_simplified_true]
        exact hex

/-- Counterexample to claim C4 as stated: the index is recorded even though
two header cells (not exactly one) are labelled "Simplified". -/
theorem claim_C4_counterexample :
    (headerLabels dupRow).count "Simplified" = 2 ∧
      findHeaderIdx [dupRow] = some 0 := by decide

/-- Claim C4 (amended): scanning a table's rows, the target index is
recorded (and scanning stops) at the first row having a header cell whose
normalized label equals "Simplified" — at least one occurrence suffices —
and the recorded index is the zero-based position of the first such label in
that row; rows without header cells are skipped. -/
theorem claim_C4 (rows : List Row) :
    findHeaderIdx rows =
      (rows.find? (fun tr => decide ("Simplified" ∈ headerLabels tr))).map
        (fun tr => (headerLabels tr).indexOf "Simplified") ∧
    ((findHeaderIdx rows).isSome ↔ ∃ tr ∈ rows, "Simplified" ∈ headerLabels tr) := by
  refine ⟨findHeaderIdx_eq_find rows, ?_⟩
  rw [findHeaderIdx_eq_find rows]
  simp [List.find?_isSome]

/-- Claim C9: when `extract_simplified` returns normally, the result is a
non-empty list and every element is a non-empty string. -/
theorem claim_C9 (bs4 : Bool) (doc : Html) (vs : List String)
    (h : extract_simplified bs4 doc = .ok vs) :
    vs ≠ [] ∧ ∀ s ∈ vs, s ≠ "" := by
  cases bs4 with
  | false => simp [extract_simplified] at h
  | true =>
    rw [extract_simplified_true] at h
    exact extractLoop_ok_spec doc vs h

/-- Witness for C9 at the spec's concrete scenario. -/
theorem claim_C9_witness :
    (["的"] : List String) ≠ [] ∧ ∀ s ∈ (["的"] : List String), s ≠ "" :=
  claim_C9 true sampleDoc ["的"] (by decide)

theorem splitSlash_ne_nil (cs : List Char) : splitSlash cs ≠ [] := by
  induction cs with
  | nil => simp [splitSlash]
  | cons c cs ih =>
    by_cases h : c = '/'
    · simp [splitSlash, h]
    · rcases hs : splitSlash cs with _ | ⟨s, ss⟩
      · exact absurd hs ih
      · simp [splitSlash, h, hs]

theorem pyLast_append_single (S : List (List Char)) (x : List Char) :
    pyLast (S ++ [x]) = x := by
  induction S with
  | nil => rfl
  | cons a S ih =>
    rcases S with _ | ⟨b, S⟩
    · rfl
    · simpa [pyLast] using ih

theorem splitSlash_snoc_slash (xs : List Char) :
    splitSlash (xs ++ ['/']) = splitSlash xs ++ [[]] := by
  induction xs with
  | nil => rfl
  | cons x xs ih =>
    by_cases h : x = '/'
    · simp [splitSlash, h, ih]
    · rcases hs : splitSlash xs with _ | ⟨s, ss⟩
      · exact absurd hs (splitSlash_ne_nil xs)
      · have hs' : splitSlash (xs ++ ['/']) = s :: (ss ++ [[]]) := by
          rw [ih, hs]
          rfl
        simp [splitSlash, h, hs, hs']

theorem splitSlash_snoc {c : Char} (hc : c ≠ '/') (xs : List Char) :
    splitSlash (xs ++ [c]) =
      (splitSlash xs).dropLast ++ [pyLast (splitSlash xs) ++ [c]] := by
  induction xs with
  | nil => simp [splitSlash, pyLast, hc]
  | cons x xs ih =>
    rw [List.cons_append]
    rcases hs : splitSlash xs with _ | ⟨s, ss⟩
    · exact absurd hs (splitSlash_ne_nil xs)
    rw [hs] at ih
    by_cases h : x = '/'
    · have lhs1 : splitSlash (x :: (xs ++ [c])) = [] :: splitSlash (xs ++ [c]) := by
        simp [splitSlash, h]
      have rhs1 : splitSlash (x :: xs) = [] :: s :: ss := by
        simp [splitSlash, h, hs]
      rw [lhs1, ih, rhs1]
      rfl
    · have rhs1 : splitSlash (x :: xs) = (x :: s) :: ss := by
        simp [splitSlash, h, hs]
      rcases ss with _ | ⟨s', ss'⟩
      · have hmid : splitSlash (xs ++ [c]) = [s ++ [c]] := by
          simpa [pyLast] using ih
        have lhs1 : splitSlash (x :: (xs ++ [c])) = [x :: (s ++ [c])] := by
          simp [splitSlash, h, hmid]
        rw [lhs1, rhs1]
        rfl
      · have hmid : splitSlash (xs ++ [c]) =
            s :: (List.dropLast (s' :: ss') ++ [pyLast (s' :: ss') ++ [c]]) := by
          rw [ih]
          rfl
        have lhs1 : splitSlash (x :: (xs ++ [c])) =
            (x :: s) :: (List.dropLast (s' :: ss') ++ [pyLast (s' :: ss') ++ [c]]) := by
          simp [splitSlash, h, hmid]
        rw [lhs1, rhs1]
        rfl

theorem rstripSlash_snoc_slash (xs : List Char) :
    rstripSlash (xs ++ ['/']) = rstripSlash xs := by
  simp [rstripSlash, List.dropWhile_cons]

theorem rstripSlash_snoc {c : Char} (hc : c ≠ '/') (xs : List Char) :
    rstripSlash (xs ++ [c]) = xs ++ [c] := by
  simp [rstripSlash, List.dropWhile_cons, hc]

theorem stripped_last_spec (cs : List Char) :
    match (splitSlash cs).reverse.find? (fun s => !s.isEmpty) with
    | some b => pyLast (splitSlash (rstripSlash cs)) = b ∧ b ≠ []
    | none => pyLast (splitSlash (rstripSlash cs)) = [] := by
  induction cs using List.reverseRecOn with
  | nil => simp [splitSlash, rstripSlash, pyLast]
  | append_singleton xs c ih =>
    by_cases hc : c = '/'
    · subst hc
      rw [rstripSlash_snoc_slash, splitSlash_snoc_slash]
      have hrev : (splitSlash xs ++ [[]]).reverse.find? (fun s => !s.isEmpty) =
          (splitSlash xs).reverse.find? (fun s => !s.isEmpty) := by
        simp only [List.reverse_append, List.reverse_singleton, List.singleton_append]
        exact List.find?_cons_of_neg _ (by simp)
      rw [hrev]
      exact ih
    · rw [rstripSlash_snoc hc, splitSlash_snoc hc]
      have hrev : ((splitSlash xs).dropLast ++ [pyLast (splitSlash xs) ++ [c]]).reverse.find?
            (fun s => !s.isEmpty) = some (pyLast (splitSlash xs) ++ [c]) := by
        simp only [List.reverse_append, List.reverse_singleton, List.singleton_append]
        exact List.find?_cons_of_pos _ (by simp)
      rw [hrev]
      exact ⟨pyLast_append_single _ _, by simp⟩

/-- Claim C5: the base name is the last non-empty segment of the URL split
on `/` (obtained in the code by stripping trailing slashes first and taking
the last segment), the operation fails with the naming error exactly when no
non-empty segment exists, and the spec's concrete example holds. -/
theorem claim_C5 (url : String) :
    (deriveBase url = .error nameErrMsg ↔ specLastSegment url = none) ∧
    (∀ b, specLastSegment url = some b → deriveBase url = .ok ⟨b⟩ ∧ b ≠ []) ∧
    deriveBase "https://example.org/wiki/Foo_list/" = .ok "Foo_list" ∧
    outFileName "https://example.org/wiki/Foo_list/" = .ok "Foo_list.csv" := by
  have h := stripped_last_spec url.data
  refine ⟨?_, ?_, by decide, by decide⟩
  · unfold specLastSegment
    rcases hf : (splitSlash url.data).reverse.find? (fun s => !s.isEmpty) with _ | b
    · rw [hf] at h
      simp only at h
      rw [hf]
      simp [deriveBase, h]
    · rw [hf] at h
      simp only at h
      have hbe : b.isEmpty = false := by
        simpa using h.2
      rw [hf]
      simp [deriveBase, h.1, hbe]
  · intro b hb
    unfold specLastSegment at hb
    rw [hb] at h
    simp only at h
    have hbe : b.isEmpty = false := by
      simpa using h.2
    refine ⟨?_, h.2⟩
    simp [deriveBase, h.1, hbe]

/-- Witness for C5: the URL `"a//b//"` has `"b"` as its last non-empty
segment, and the derived base name is `"b"`. -/
theorem claim_C5_witness :
    deriveBase "a//b//" = .ok ⟨['b']⟩ ∧ ['b'] ≠ [] :=
  (claim_C5 "a//b//").2.1 ['b'] (by decide)

theorem needsQuote_false_mem {v : List Char} (hnq : needsQuote v = false) :
    ∀ ch ∈ v, ch ≠ ',' ∧ ch ≠ '"' ∧ ch ≠ '\r' ∧ ch ≠ '\n' := by
  intro ch hch
  have := List.any_eq_false.mp hnq ch hch
  simp only [Bool.or_eq_true, beq_iff_eq, not_or] at this
  exact ⟨this.1.1.1, this.1.1.2, this.1.2, this.2⟩

theorem foldl_inField (cs : List Char)
    (hcs : ∀ ch ∈ cs, ch ≠ ',' ∧ ch ≠ '\r' ∧ ch ≠ '\n') (f : List Char)
    (r : List (List Char)) (rs : List (List (List Char))) :
    cs.foldl csvStep ⟨.inField, f, r, rs⟩ = ⟨.inField, f ++ cs, r, rs⟩ := by
  induction cs generalizing f with
  | nil => simp
  | cons ch cs ih =>
    obtain ⟨h1, h2, h3⟩ := hcs ch (List.mem_cons_self _ _)
    rw [List.foldl_cons]
    have hstep : csvStep ⟨.inField, f, r, rs⟩ ch = ⟨.inField, f ++ [ch], r, rs⟩ := by
      simp [csvStep, h1, h2, h3]
    rw [hstep, ih (fun c hc => hcs c (List.mem_cons_of_mem _ hc))]
    simp

theorem foldl_inQuoted (cs : List Char) (f : List Char)
    (r : List (List Char)) (rs : List (List (List Char))) :
    (escapeQuotes cs).foldl csvStep ⟨.inQuoted, f, r, rs⟩ = ⟨.inQuoted, f ++ cs, r, rs⟩ := by
  induction cs generalizing f with
  | nil => simp [escapeQuotes]
  | cons ch cs ih =>
    by_cases h : ch = '"'
    · subst h
      have he : escapeQuotes ('"' :: cs) = '"' :: '"' :: escapeQuotes cs := by
        simp [escapeQuotes]
      rw [he, List.foldl_cons, List.foldl_cons]
      have s1 : csvStep ⟨.inQuoted, f, r, rs⟩ '"' = ⟨.quoteQuoted, f, r, rs⟩ := by
        simp [csvStep]
      have s2 : csvStep ⟨.quoteQuoted, f, r, rs⟩ '"' = ⟨.inQuoted, f ++ ['"'], r, rs⟩ := by
        simp [csvStep]
      rw [s1, s2, ih]
      simp
    · have he : escapeQuotes (ch :: cs) = ch :: escapeQuotes cs := by
        simp [escapeQuotes, h]
      rw [he, List.foldl_cons]
      have s1 : csvStep ⟨.inQuoted, f, r, rs⟩ ch = ⟨.inQuoted, f ++ [ch], r, rs⟩ := by
        simp [csvStep, h]
      rw [s1, ih]
      simp

theorem writeRow_single (v : List Char) :
    writeRow [v] = writeField v ++ ['\r', '\n'] := by
  simp [writeRow, List.intercalate]

theorem writeRow_single_foldl (v : List Char) (hne : v ≠ [])
    (rs : List (List (List Char))) :
    (writeRow [v]).foldl csvStep ⟨.startRecord, [], [], rs⟩ =
      ⟨.startRecord, [], [], rs ++ [[v]]⟩ := by
  rw [writeRow_single, List.foldl_append]
  by_cases hq : needsQuote v
  · have hw : writeField v = '"' :: (escapeQuotes v ++ ['"']) := by
      simp [writeField, hq]
    have hfv : (writeField v).foldl csvStep ⟨.startRecord, [], [], rs⟩ =
        ⟨.quoteQuoted, v, [], rs⟩ := by
      rw [hw, List.foldl_cons]
      have s1 : csvStep ⟨.startRecord, [], [], rs⟩ '"' = ⟨.inQuoted, [], [], rs⟩ := by
        simp [csvStep, startFieldStep]
      rw [s1, List.foldl_append, foldl_inQuoted]
      simp only [List.nil_append, List.foldl_cons, List.foldl_nil]
      simp [csvStep]
    rw [hfv]
    have s3 : csvStep ⟨.quoteQuoted, v, [], rs⟩ '\r' = ⟨.seenCR, [], [v], rs⟩ := by
      simp [csvStep, saveField]
    have s4 : csvStep ⟨.seenCR, [], [v], rs⟩ '\n' = ⟨.startRecord, [], [], rs ++ [[v]]⟩ := by
      simp [csvStep, emitRecord]
    simp [s3, s4]
  · have hw : writeField v = v := by
      simp [writeField, hq]
    have hmem := needsQuote_false_mem (by simpa using hq)
    rcases v with _ | ⟨ch, cs⟩
    · exact absurd rfl hne
    obtain ⟨g1, g2, g3, g4⟩ := hmem ch (List.mem_cons_self _ _)
    have hfv : (writeField (ch :: cs)).foldl csvStep ⟨.startRecord, [], [], rs⟩ =
        ⟨.inField, ch :: cs, [], rs⟩ := by
      rw [hw, List.foldl_cons]
      have s1 : csvStep ⟨.startRecord, [], [], rs⟩ ch = ⟨.inField, [ch], [], rs⟩ := by
        simp [csvStep, startFieldStep, g1, g2, g3, g4]
      rw [s1, foldl_inField cs
        (fun c hc => (fun h => ⟨h.1, h.2.2.1, h.2.2.2⟩) (hmem c (List.mem_cons_of_mem _ hc)))]
      simp
    rw [hfv]
    have s3 : csvStep ⟨.inField, ch :: cs, [], rs⟩ '\r' = ⟨.seenCR, [], [ch :: cs], rs⟩ := by
      simp [csvStep, saveField]
    have s4 : csvStep ⟨.seenCR, [], [ch :: cs], rs⟩ '\n' =
        ⟨.startRecord, [], [], rs ++ [[ch :: cs]]⟩ := by
      simp [csvStep, emitRecord]
    simp [s3, s4]

theorem writeCsvBody_foldl (vals : List (List Char)) (hall : ∀ v ∈ vals, v ≠ [])
    (rs : List (List (List Char))) :
    (writeCsvBody vals).foldl csvStep ⟨.startRecord, [], [], rs⟩ =
      ⟨.startRecord, [], [], rs ++ vals.map (fun v => [v])⟩ := by
  induction vals generalizing rs with
  | nil => simp [writeCsvBody]
  | cons v vals ih =>
    have hbody : writeCsvBody (v :: vals) = writeRow [v] ++ writeCsvBody vals := by
      simp [writeCsvBody]
    rw [hbody, List.foldl_append, writeRow_single_foldl v (hall v (List.mem_cons_self _ _)),
      ih (fun w hw => hall w (List.mem_cons_of_mem _ hw))]
    simp

/-- Claim C3: writing a list of extracted (hence non-empty) values as the
CSV body — one value per row, minimal quoting, doubled quotes, `\r\n`
terminators, no header — and reading the text back yields exactly one
record per value, each a single field equal to the original string, also for
strings containing commas, quotes, or newlines. -/
theorem claim_C3 (vals : List String) (h : ∀ v ∈ vals, v ≠ "") :
    parseCsv (writeCsvBody (vals.map String.data)) = vals.map (fun v => [v.data]) := by
  have hall : ∀ v ∈ vals.map String.data, v ≠ [] := by
    intro v hv hnil
    rcases List.mem_map.mp hv with ⟨s, hs, rfl⟩
    obtain ⟨l⟩ := s
    have hl : l = [] := hnil
    exact h ⟨l⟩ hs (by rw [hl])
  unfold parseCsv csvInit
  rw [writeCsvBody_foldl _ hall]
  simp [csvFinish]

/-- Witness for C3 on values containing a comma, quotes, and a newline. -/
theorem claim_C3_witness :
    parseCsv (writeCsvBody ((["a,b", "say \"hi\"", "line1\nline2", "plain"] :
        List String).map String.data)) =
      (["a,b", "say \"hi\"", "line1\nline2", "plain"] : List String).map
        (fun v => [v.data]) :=
  claim_C3 _ (by decide)

/-- Claim C6: the fallback transport is used iff the primary raises (any
exception: library missing, network failure, or an error status alike); the
fallback request carries the same 30-second timeout and user-agent, and its
body is decoded as UTF-8 with invalid bytes replaced (e.g. `0xFF` becomes
U+FFFD) rather than failing. -/
theorem claim_C6 (url : String) (primary : HttpRequest → PrimaryOutcome)
    (fallback : HttpRequest → FallbackOutcome) :
    (primaryRaises (primary (mkReq url)) = true →
      fetch_html url primary fallback = fetchFallback url fallback) ∧
    (primaryRaises (primary (mkReq url)) = false →
      ∀ status text, primary (mkReq url) = .response status text →
        fetch_html url primary fallback = .ok text) ∧
    (mkReq url).timeoutSeconds = 30 ∧
    (mkReq url).userAgent = scraperUA ∧
    (∀ body, fallback (mkReq url) = .response body →
      fetchFallback url fallback = .ok ⟨decodeUtf8Replace body⟩) ∧
    decodeUtf8Replace [0xFF] = [Char.ofNat 0xFFFD] := by
  refine ⟨?_, ?_, rfl, rfl, ?_, by decide⟩
  · intro hr
    unfold fetch_html
    cases hp : primary (mkReq url) with
    | response status text =>
      rw [hp] at hr
      simp [hr]
    | exn => rfl
  · intro hr status text hp
    unfold fetch_html
    rw [hp]
    rw [hp] at hr
    simp [hr]
  · intro body hb
    unfold fetchFallback
    rw [hb]

/-- Witness for C6: a failing primary and a fallback body with one ASCII
byte and one invalid byte. -/
theorem claim_C6_witness :
    fetch_html "x" (fun _ => .exn) (fun _ => .response [0x61, 0xFF]) =
      .ok ⟨[Char.ofNat 0x61, Char.ofNat 0xFFFD]⟩ := by
  have h := claim_C6 "x" (fun _ => .exn) (fun _ => .response [0x61, 0xFF])
  rw [h.1 rfl, h.2.2.2.2.1 [0x61, 0xFF] rfl]
  decide

/-- Claim C7: the header-suppression value is `true` whether or not the flag
is passed, so the written output never includes the header row and is
exactly one CSV row per extracted value. -/
theorem claim_C7 (present : Bool) (vals : List (List Char)) :
    noHeaderValue present = true ∧
    outputContent (noHeaderValue present) vals = writeCsvBody vals ∧
    writeCsvBody vals = (vals.map (fun v => writeRow [v])).flatten := by
  have h1 : noHeaderValue present = true := by
    cases present <;> rfl
  refine ⟨h1, ?_, rfl⟩
  rw [h1]
  simp [outputContent]

/-- Claim C8: whenever `main` fails (naming, fetch, or extraction error),
the output file is never opened and never written: those effects are absent
from the trace. -/
theorem claim_C8 (url : String) (noHeaderFlag bs4Available : Bool)
    (primary : HttpRequest → PrimaryOutcome) (fallback : HttpRequest → FallbackOutcome)
    (parseDoc : String → Html) (e : String)
    (h : (main_run url noHeaderFlag bs4Available primary fallback parseDoc).1 = .error e) :
    Effect.openWrite ∉ (main_run url noHeaderFlag bs4Available primary fallback parseDoc).2 ∧
    ∀ cs, Effect.writeRows cs ∉
      (main_run url noHeaderFlag bs4Available primary fallback parseDoc).2 := by
  rcases hd : deriveBase url with e1 | base
  · refine ⟨?_, fun cs => ?_⟩ <;> simp [main_run, hd]
  · rcases hf : fetch_html url primary fallback with e2 | html
    · refine ⟨?_, fun cs => ?_⟩ <;> simp [main_run, hd, hf]
    · rcases hx : extract_simplified bs4Available (parseDoc html) with e3 | vals
      · refine ⟨?_, fun cs => ?_⟩ <;> simp [main_run, hd, hf, hx]
      · exfalso
        simp [main_run, hd, hf, hx] at h

/-- Witness for C8: a URL with no derivable name fails, and the trace holds
no open or write effect. -/
theorem claim_C8_witness :
    Effect.openWrite ∉
      (main_run "///" true true (fun _ => .exn) (fun _ => .exn) (fun _ => [])).2 ∧
    ∀ cs, Effect.writeRows cs ∉
      (main_run "///" true true (fun _ => .exn) (fun _ => .exn) (fun _ => [])).2 :=
  claim_C8 "///" true true (fun _ => .exn) (fun _ => .exn) (fun _ => [])
    nameErrMsg (by decide)

/-- Claim C10: the output directory is created first, before the filename
check, the fetch and the extraction, so a failing invocation still carries
the directory-creation effect. -/
theorem claim_C10 (url : String) (noHeaderFlag bs4Available : Bool)
    (primary : HttpRequest → PrimaryOutcome) (fallback : HttpRequest → FallbackOutcome)
    (parseDoc : String → Html) :
    (main_run url noHeaderFlag bs4Available primary fallback parseDoc).2.head? =
      some Effect.mkdirOut ∧
    ∀ e, (main_run url noHeaderFlag bs4Available primary fallback parseDoc).1 = .error e →
      Effect.mkdirOut ∈ (main_run url noHeaderFlag bs4Available primary fallback parseDoc).2 := by
  refine ⟨?_, fun e _ => ?_⟩ <;>
    (rcases hd : deriveBase url with e1 | base
     · simp [main_run, hd]
     · rcases hf : fetch_html url primary fallback with e2 | html
       · simp [main_run, hd, hf]
       · rcases hx : extract_simplified bs4Available (parseDoc html) with e3 | vals
         · simp [main_run, hd, hf, hx]
         · simp [main_run, hd, hf, hx])

/-- Witness for C10 at a failing invocation. -/
theorem claim_C10_witness :
    (main_run "///" true true (fun _ => .exn) (fun _ => .exn) (fun _ => [])).2.head? =
      some Effect.mkdirOut ∧
    Effect.mkdirOut ∈
      (main_run "///" true true (fun _ => .exn) (fun _ => .exn) (fun _ => [])).2 :=
  ⟨(claim_C10 "///" true true (fun _ => .exn) (fun _ => .exn) (fun _ => [])).1,
    (claim_C10 "///" true true (fun _ => .exn) (fun _ => .exn) (fun _ => [])).2
      nameErrMsg (by decide)⟩

end AnkiScrape
